import Mathlib

/-!
Shallow embedding of the review-scheduling and answer-grading engine of the
Flash-Master repository, together with theorems checking the specification
against it.

The embedding conventions:
* TypeScript numbers that carry fractional values (intervals in days,
  similarity scores) are modelled as rationals (`ℚ`).
* Timestamps are modelled as rationals measured in days (for the scheduling
  algorithms) or integers measured in milliseconds (for the due-record
  queue); only their ordered additive structure is used by the code.
* Strings compared character-by-character are modelled as `List Char`.
* `Array.prototype.sort` with a consistent comparator is, per ES2019, a
  stable ascending sort; it is modelled by `List.insertionSort`, which
  produces the unique stable ascending reordering.
* Fallible values (`null` / absent fields) are modelled with `Option`.
-/

namespace FlashMaster

/-- The five familiarity tiers of the `FamiliarityLevel` union type used
throughout `src/utils/srs.ts`. -/
inductive FamiliarityLevel where
  | unfamiliar
  | unanswered
  | somewhatFamiliar
  | familiar
  | mastered
deriving DecidableEq, Repr

/-- The familiarity transition function `updateFamiliarity` of
`src/utils/srs.ts` (lines 185-220): branches on correctness, then on the
current tier, with speed thresholds `timeSpent < 10` and `timeSpent < 5`
on the two promotion edges. -/
def updateFamiliarity (currentFamiliarity : FamiliarityLevel) (isCorrect : Bool)
    (timeSpent : ℚ) : FamiliarityLevel :=
  if isCorrect then
    match currentFamiliarity with
    | .unfamiliar => .somewhatFamiliar
    | .unanswered => .somewhatFamiliar
    | .somewhatFamiliar => if timeSpent < 10 then .familiar else .somewhatFamiliar
    | .familiar => if timeSpent < 5 then .mastered else .familiar
    | .mastered => .mastered
  else
    match currentFamiliarity with
    | .unfamiliar => .unfamiliar
    | .unanswered => .unfamiliar
    | .somewhatFamiliar => .unfamiliar
    | .familiar => .somewhatFamiliar
    | .mastered => .familiar

/-- Rank of a tier in the five-tier order of the data model.  The spec
states the order is not strict for transition purposes: `unanswered` and
`unfamiliar` are both "low", so they share the bottom rank; a tier's
immediate successor is any tier of rank one higher. -/
def tierRank : FamiliarityLevel → ℕ
  | .unfamiliar => 0
  | .unanswered => 0
  | .somewhatFamiliar => 1
  | .familiar => 2
  | .mastered => 3

/-- C8: for every familiarity tier and every `timeSpent ≥ 10` seconds, a
correct answer moves the tier to itself or to an immediate successor
(one rank up in the five-tier order) — a correct slow answer never skips
a tier. -/
theorem updateFamiliarity_correct_slow_no_skip
    (tier : FamiliarityLevel) (timeSpent : ℚ) (h : 10 ≤ timeSpent) :
    updateFamiliarity tier true timeSpent = tier ∨
      tierRank (updateFamiliarity tier true timeSpent) = tierRank tier + 1 := by
  have h10 : ¬ timeSpent < 10 := not_lt.mpr h
  have h5 : ¬ timeSpent < 5 := not_lt.mpr (le_trans (by norm_num) h)
  cases tier <;> simp [updateFamiliarity, tierRank, h10, h5]

/-- Witness for C8 at the concrete input `tier = familiar`,
`timeSpent = 12`. -/
theorem updateFamiliarity_correct_slow_no_skip_witness :
    updateFamiliarity .familiar true 12 = .familiar ∨
      tierRank (updateFamiliarity .familiar true 12) = tierRank .familiar + 1 :=
  updateFamiliarity_correct_slow_no_skip .familiar 12 (by norm_num)

/-- The `toInteger` conversion of the date-fns library: a fractional
amount is truncated toward zero (positive decimals floored, negative
decimals ceiled) before being used. -/
def jsToInteger (q : ℚ) : ℤ :=
  if q < 0 then ⌈q⌉ else ⌊q⌋

/-- The `addDays(date, amount)` helper of the date-fns library, with
timestamps measured in days: the amount is converted to an integer via
`toInteger`, so any fractional part of `amount` is discarded. -/
def addDays (now : ℚ) (amount : ℚ) : ℚ :=
  now + (jsToInteger amount : ℚ)

/-- The `SimpleSRSAlgorithm.calculateNextReview` method of
`src/utils/srs.ts` (lines 128-178): base interval by tier, a ×1.5 / ×0.5
accuracy adjustment, a streak multiplier capped at 3, and a final call to
date-fns `addDays`. -/
def simpleCalculateNextReview (currentFamiliarity : FamiliarityLevel)
    (correctCount incorrectCount streak : ℕ) (now : ℚ) : ℚ :=
  let base : ℚ :=
    match currentFamiliarity with
    | .unfamiliar => 1/10
    | .unanswered => 1/2
    | .somewhatFamiliar => 1
    | .familiar => 3
    | .mastered => 7
  let totalAttempts := correctCount + incorrectCount
  let afterAccuracy : ℚ :=
    if 0 < totalAttempts then
      let accuracy : ℚ := (correctCount : ℚ) / (totalAttempts : ℚ)
      if 9/10 ≤ accuracy then base * (3/2)
      else if accuracy < 3/5 then base * (1/2)
      else base
    else base
  let afterStreak : ℚ :=
    if 0 < streak then afterAccuracy * min (1 + (streak : ℚ) * (1/5)) 3
    else afterAccuracy
  addDays now afterStreak

/-- C4: at tier `mastered` with `correctCount = 9`, `incorrectCount = 1`,
`streak = 3`, the Simple algorithm computes the interval 16.8 days, but
date-fns `addDays` truncates the fractional amount, so the returned
timestamp is `now + 16` days rather than the `now + 16.8` days the spec
requires: the 0.8-day fraction is not preserved. -/
theorem simple_mastered_scenario_fraction_dropped (now : ℚ) :
    simpleCalculateNextReview .mastered 9 1 3 now = now + 16 ∧
      now + 16 ≠ now + 168/10 := by
  constructor
  · show addDays now _ = _
    rw [addDays, jsToInteger]
    norm_num [Int.floor_eq_iff]
  · intro heq
    have : (16 : ℚ) = 168/10 := by exact add_left_cancel heq
    norm_num at this

/-- Witness for C4: the theorem instantiated at `now = 0`. -/
theorem simple_mastered_scenario_fraction_dropped_witness :
    simpleCalculateNextReview .mastered 9 1 3 0 = 0 + 16 :=
  (simple_mastered_scenario_fraction_dropped 0).1

/-- One item of a `sort` question: `{id, text, correctOrder}`; the text is
irrelevant to grading, the id distinguishes items. -/
structure SortItem where
  id : ℕ
  correctOrder : ℤ
deriving DecidableEq, Repr

instance : DecidableRel (fun a b : SortItem => a.correctOrder ≤ b.correctOrder) :=
  fun a b => Int.decLe a.correctOrder b.correctOrder

/-- The in-place `currentQuestion.items.sort((a, b) => a.correctOrder - b.correctOrder)`
of `StudyView.checkAnswer`: a stable ascending sort by `correctOrder`,
modelled by insertion sort. -/
def sortItemsByCorrectOrder (items : List SortItem) : List SortItem :=
  items.insertionSort (fun a b => a.correctOrder ≤ b.correctOrder)

/-- The `sort` branch of `checkAnswer` in `src/components/StudyView.tsx`
(lines 130-136): sort the items by `correctOrder`, map each element to its
index, and compare the user's index sequence elementwise after a length
check. -/
def checkAnswerSortStudy (items : List SortItem) (userOrder : List ℕ) : Bool :=
  let correctOrder := (sortItemsByCorrectOrder items).enum.map Prod.fst
  userOrder.length == correctOrder.length &&
    (userOrder.zip correctOrder).all (fun p => p.1 == p.2)

/-- The `sort` branch of `checkAnswer` in `src/components/ReviewView.tsx`
(lines 92-93): it is the constant `false`. -/
def checkAnswerSortReview (_items : List SortItem) (_userOrder : List ℕ) : Bool :=
  false

instance : DecidableRel (fun a b : ℕ × SortItem => a.2.correctOrder ≤ b.2.correctOrder) :=
  fun a b => Int.decLe a.2.correctOrder b.2.correctOrder

/-- The canonical answer sequence the spec prescribes for a sort question,
following the spec's words: "treat the canonical order as the items
sorted ascending by `correctOrder`, producing a 0-based index sequence".
Each item is paired with its 0-based index, the pairs are sorted
ascending (stably) by the item's `correctOrder`, and the index sequence
of that sorted arrangement is read off — the argsort permutation of
`correctOrder` (for example `[1, 0]` for two items with `correctOrder`
values `2, 1`). -/
def sortCanonicalIndexSeq (items : List SortItem) : List ℕ :=
  (items.enum.insertionSort (fun a b => a.2.correctOrder ≤ b.2.correctOrder)).map Prod.fst

/-- Zipping a list with itself yields only reflexive pairs. -/
lemma zip_self_all_eq (l : List ℕ) : (l.zip l).all (fun p => p.1 == p.2) = true := by
  induction l with
  | nil => rfl
  | cons x xs ih => simpa using ih

/-- Lean form of the JavaScript pattern
`xs.length === ys.length && xs.every((x, i) => x === ys[i])`:
it decides list equality. -/
lemma length_eq_and_zip_all_iff (xs ys : List ℕ) :
    (xs.length == ys.length && (xs.zip ys).all (fun p => p.1 == p.2)) = true ↔
      xs = ys := by
  induction xs generalizing ys with
  | nil => cases ys <;> simp
  | cons x xs ih =>
    cases ys with
    | nil => simp
    | cons y ys =>
      rw [Bool.and_eq_true, beq_iff_eq]
      constructor
      · rintro ⟨hlen, hall⟩
        rw [List.zip_cons_cons, List.all_cons, Bool.and_eq_true] at hall
        obtain ⟨hx, hall⟩ := hall
        have hx' : x = y := by simpa using hx
        have hxs : xs = ys := by
          rw [← ih ys, Bool.and_eq_true, beq_iff_eq]
          exact ⟨by simpa using hlen, hall⟩
        rw [hx', hxs]
      · intro h
        injection h with h1 h2
        subst h1
        subst h2
        refine ⟨rfl, ?_⟩
        rw [List.zip_cons_cons, List.all_cons, Bool.and_eq_true]
        exact ⟨by simp, zip_self_all_eq xs⟩

/-- C1 counterexample: for the two-item sort question with `correctOrder`
values `2` and `1`, the spec-canonical index sequence is `[1, 0]` (the
item at index 1 comes first when sorting ascending by `correctOrder`),
yet the study-mode evaluator rejects `[1, 0]` and instead accepts
`[0, 1]`, and the review-mode evaluator also rejects `[1, 0]` — the
claimed rule fails at both dispatch sites. -/
theorem sortCanonical_fails_at_both_sites :
    sortCanonicalIndexSeq [⟨0, 2⟩, ⟨1, 1⟩] = [1, 0] ∧
      checkAnswerSortStudy [⟨0, 2⟩, ⟨1, 1⟩] [1, 0] = false ∧
      checkAnswerSortStudy [⟨0, 2⟩, ⟨1, 1⟩] [0, 1] = true ∧
      checkAnswerSortReview [⟨0, 2⟩, ⟨1, 1⟩] [1, 0] = false := by
  exact ⟨by decide, by decide, by decide, rfl⟩

/-- C1 amended: the study-mode `checkAnswer` judges a sort answer correct
exactly when it is the identity index sequence `0, 1, …, n-1` (`n` the
number of items): the code sorts the items and maps each element of the
sorted array to its position, which yields `[0, …, n-1]` whatever the
`correctOrder` values are, so the accepted answer is independent of
`correctOrder` and in general differs from the spec's canonical argsort
sequence; the review-mode `checkAnswer` judges every sort submission
incorrect. -/
theorem checkAnswerSort_study_identity_review_false
    (items : List SortItem) (userOrder : List ℕ) :
    (checkAnswerSortStudy items userOrder = true ↔
      userOrder = List.range items.length) ∧
      checkAnswerSortReview items userOrder = false := by
  refine ⟨?_, rfl⟩
  unfold checkAnswerSortStudy sortItemsByCorrectOrder
  rw [length_eq_and_zip_all_iff, List.enum_map_fst, List.length_insertionSort]

/-- The study-mode sort evaluation together with its effect on the question
state: JavaScript `Array.prototype.sort` sorts `currentQuestion.items` in
place, so after `checkAnswer` runs, the question's `items` array holds the
sorted sequence.  The first component is the returned boolean, the second
the `items` array after the call. -/
def checkAnswerSortStudyEffect (items : List SortItem) (userOrder : List ℕ) :
    Bool × List SortItem :=
  (checkAnswerSortStudy items userOrder, sortItemsByCorrectOrder items)

/-- C7: evaluating a sort question whose items are not already in
`correctOrder` order reorders the question's `items` array in place —
the evaluator is not a pure predicate on the question.  Concretely, for
items `[{id 0, correctOrder 2}, {id 1, correctOrder 1}]` the array after
evaluation is `[{id 1}, {id 0}]`, which differs from the original. -/
theorem checkAnswerSortStudy_mutates_items :
    (checkAnswerSortStudyEffect [⟨0, 2⟩, ⟨1, 1⟩] []).2 = [⟨1, 1⟩, ⟨0, 2⟩] ∧
      ([⟨1, 1⟩, ⟨0, 2⟩] : List SortItem) ≠ [⟨0, 2⟩, ⟨1, 1⟩] := by
  exact ⟨by decide, by decide⟩

/-- One option of a multiple-choice question: `{id, text, isCorrect}`;
the text is irrelevant to grading. -/
structure QuestionOption where
  id : ℕ
  isCorrect : Bool
deriving DecidableEq, Repr

/-- The `options.filter(opt => opt.isCorrect).map(opt => opt.id)`
computation shared by both `checkAnswer` implementations. -/
def correctOptionIds (options : List QuestionOption) : List ℕ :=
  (options.filter (fun o => o.isCorrect)).map (fun o => o.id)

/-- The `allowMultiple` branch of the `multiple-choice` case of
`checkAnswer`, identical in `src/components/StudyView.tsx` (lines 105-112)
and `src/components/ReviewView.tsx` (lines 77-81):
`selectedOptions.length === correctOptions.length &&
selectedOptions.every(id => correctOptions.includes(id))`. -/
def checkAnswerMultipleChoiceMulti (options : List QuestionOption)
    (selectedOptions : List ℕ) : Bool :=
  let correctOptions := correctOptionIds options
  selectedOptions.length == correctOptions.length &&
    selectedOptions.all (fun i => correctOptions.contains i)

/-- C2 counterexample: with correct option ids `{0, 1}`, the duplicate
submission `[0, 0]` is judged correct by the evaluator even though as an
unordered set it is `{0}`, which differs from `{0, 1}` — the claimed
set-equality characterisation fails. -/
theorem multiSelect_duplicates_judged_correct :
    checkAnswerMultipleChoiceMulti [⟨0, true⟩, ⟨1, true⟩] [0, 0] = true ∧
      ¬ (∀ x : ℕ, x ∈ ([0, 0] : List ℕ) ↔
          x ∈ correctOptionIds [⟨0, true⟩, ⟨1, true⟩]) := by
  refine ⟨by decide, fun h => ?_⟩
  exact absurd ((h 1).mpr (by decide)) (by decide)

/-- C2 amended: the multi-select evaluator returns true exactly when the
submission's length equals the number of `isCorrect` options and every
submitted id occurs among the correct ids.  For duplicate-free
submissions (with the options' ids distinct) this coincides with equality
of the underlying unordered sets, but a submission that repeats correct
ids while matching the length is also judged correct. -/
theorem checkAnswerMultipleChoiceMulti_iff (options : List QuestionOption)
    (selected : List ℕ) :
    (checkAnswerMultipleChoiceMulti options selected = true ↔
      selected.length = (correctOptionIds options).length ∧
        ∀ x ∈ selected, x ∈ correctOptionIds options) ∧
      (selected.Nodup → (correctOptionIds options).Nodup →
        (checkAnswerMultipleChoiceMulti options selected = true ↔
          ∀ x, x ∈ selected ↔ x ∈ correctOptionIds options)) := by
  have hmain : checkAnswerMultipleChoiceMulti options selected = true ↔
      selected.length = (correctOptionIds options).length ∧
        ∀ x ∈ selected, x ∈ correctOptionIds options := by
    unfold checkAnswerMultipleChoiceMulti
    rw [Bool.and_eq_true, beq_iff_eq, List.all_eq_true]
    refine and_congr_right fun _ => ?_
    constructor
    · intro h x hx
      simpa [List.contains] using h x hx
    · intro h x hx
      simpa [List.contains] using h x hx
  refine ⟨hmain, fun hsel hcorr => hmain.trans ?_⟩
  constructor
  · rintro ⟨hlen, hsub⟩ x
    refine ⟨fun hx => hsub x hx, fun hx => ?_⟩
    have hsp : List.Subperm selected (correctOptionIds options) :=
      hsel.subperm fun y hy => hsub y hy
    have hperm : List.Perm selected (correctOptionIds options) :=
      hsp.perm_of_length_le (le_of_eq hlen.symm)
    exact hperm.mem_iff.mpr hx
  · intro h
    have h1 : List.Subperm selected (correctOptionIds options) :=
      hsel.subperm fun y hy => (h y).mp hy
    have h2 : List.Subperm (correctOptionIds options) selected :=
      hcorr.subperm fun y hy => (h y).mpr hy
    exact ⟨le_antisymm h1.length_le h2.length_le, fun x hx => (h x).mp hx⟩

/-- Witness for C2's amended theorem: applying it to the two-option
question with correct ids `{0, 1}` and the order-reversed duplicate-free
submission `[1, 0]` shows that submission is judged correct. -/
theorem checkAnswerMultipleChoiceMulti_iff_witness :
    checkAnswerMultipleChoiceMulti [⟨0, true⟩, ⟨1, true⟩] [1, 0] = true :=
  (checkAnswerMultipleChoiceMulti_iff [⟨0, true⟩, ⟨1, true⟩] [1, 0]).1.mpr
    ⟨by decide, by decide⟩

/-- Witness for C1's amended theorem: at the two-item question with
`correctOrder` values `2, 1` the study evaluator accepts the identity
sequence `[0, 1]`. -/
theorem checkAnswerSort_study_identity_review_false_witness :
    checkAnswerSortStudy [⟨0, 2⟩, ⟨1, 1⟩] [0, 1] = true :=
  (checkAnswerSort_study_identity_review_false [⟨0, 2⟩, ⟨1, 1⟩] [0, 1]).1.mpr (by decide)

/-- C3: the review-mode `checkAnswer` of `src/components/ReviewView.tsx`
returns false for every sort question and every submitted answer: no sort
submission is ever judged correct during review. -/
theorem checkAnswerSortReview_always_false (items : List SortItem)
    (userOrder : List ℕ) : checkAnswerSortReview items userOrder = false :=
  rfl

/-- The four bopomofo tone marks removed by the regular expression
`/[ˊˇˋ˙]/g` in `MoedictAPI.normalizeBopomofo`. -/
def isToneMark (c : Char) : Bool :=
  c = 'ˊ' || c = 'ˇ' || c = 'ˋ' || c = '˙'

/-- `normalizeBopomofo` of `src/utils/moedict.ts` (lines 117-119):
`bopomofo.replace(/[ˊˇˋ˙]/g, '')`, i.e. delete every tone mark. -/
def normalizeBopomofo (bopomofo : List Char) : List Char :=
  bopomofo.filter (fun c => !isToneMark c)

/-- One row step of the dynamic-programming matrix of
`MoedictAPI.levenshteinDistance`: given the previous row
(`prevRow = matrix[j]`), compute the entries of row `j+1`.  The entry at
column `i+1` is `min(matrix[j+1][i] + 1, matrix[j][i+1] + 1,
matrix[j][i] + indicator)` with `indicator = 0` iff
`str1[i] === str2[j]`, exactly as in the source (lines 149-158). -/
def levRow (str1 str2 : List Char) (prevRow : ℕ → ℕ) (j : ℕ) : ℕ → ℕ
  | 0 => j + 1
  | i + 1 =>
    let indicator : ℕ := if str1.getD i ' ' = str2.getD j ' ' then 0 else 1
    min (min (levRow str1 str2 prevRow j i + 1) (prevRow (i + 1) + 1))
      (prevRow i + indicator)

/-- The dynamic-programming matrix of `MoedictAPI.levenshteinDistance`
(lines 138-161): `levMatrix str1 str2 j i` is `matrix[j][i]`, the edit
distance between the first `i` characters of `str1` and the first `j`
characters of `str2`.  Row `0` is `0, 1, 2, …` and column `0` is
`0, 1, 2, …`, as set by the two initialisation loops. -/
def levMatrix (str1 str2 : List Char) : ℕ → ℕ → ℕ
  | 0 => fun i => i
  | j + 1 => levRow str1 str2 (levMatrix str1 str2 j) j

lemma levMatrix_zero (str1 str2 : List Char) (i : ℕ) :
    levMatrix str1 str2 0 i = i := rfl

lemma levMatrix_succ_zero (str1 str2 : List Char) (j : ℕ) :
    levMatrix str1 str2 (j + 1) 0 = j + 1 := rfl

lemma levMatrix_succ_succ (str1 str2 : List Char) (j i : ℕ) :
    levMatrix str1 str2 (j + 1) (i + 1) =
      min (min (levMatrix str1 str2 (j + 1) i + 1) (levMatrix str1 str2 j (i + 1) + 1))
        (levMatrix str1 str2 j i +
          if str1.getD i ' ' = str2.getD j ' ' then 0 else 1) := rfl

/-- The DP matrix is symmetric in its two strings once the indices are
swapped: entry `[j][i]` for `(str1, str2)` equals entry `[i][j]` for
`(str2, str1)`. -/
lemma levMatrix_symm (str1 str2 : List Char) (j i : ℕ) :
    levMatrix str1 str2 j i = levMatrix str2 str1 i j := by
  induction j generalizing i with
  | zero => cases i <;> rfl
  | succ j ihj =>
    induction i with
    | zero => rfl
    | succ i ihi =>
      rw [levMatrix_succ_succ, levMatrix_succ_succ, ihj (i + 1), ihj i, ihi]
      have hind : (if str1.getD i ' ' = str2.getD j ' ' then (0 : ℕ) else 1) =
          if str2.getD j ' ' = str1.getD i ' ' then (0 : ℕ) else 1 := by
        simp [eq_comm]
      rw [hind]
      omega

/-- `MoedictAPI.levenshteinDistance` (lines 138-161): the bottom-right
entry `matrix[str2.length][str1.length]` of the DP matrix. -/
def levenshteinDistance (str1 str2 : List Char) : ℕ :=
  levMatrix str1 str2 str2.length str1.length

lemma levenshteinDistance_symm (str1 str2 : List Char) :
    levenshteinDistance str1 str2 = levenshteinDistance str2 str1 :=
  levMatrix_symm str1 str2 str2.length str1.length

/-- `MoedictAPI.calculateSimilarity` (lines 122-135): normalize both
strings, return `1.0` when they agree, otherwise
`1 - distance / maxLength`, guarding `maxLength === 0` with `0`. -/
def calculateSimilarity (bopomofo1 bopomofo2 : List Char) : ℚ :=
  if normalizeBopomofo bopomofo1 = normalizeBopomofo bopomofo2 then 1
  else if max (normalizeBopomofo bopomofo1).length (normalizeBopomofo bopomofo2).length = 0
    then 0
  else 1 -
    (levenshteinDistance (normalizeBopomofo bopomofo1) (normalizeBopomofo bopomofo2) : ℚ) /
      (max (normalizeBopomofo bopomofo1).length (normalizeBopomofo bopomofo2).length : ℚ)

/-- C9: the similarity function returns `1.0` on every non-empty string
paired with itself, and is symmetric in its two arguments. -/
theorem calculateSimilarity_self_and_symm :
    (∀ a : List Char, a ≠ [] → calculateSimilarity a a = 1) ∧
      ∀ a b : List Char, calculateSimilarity a b = calculateSimilarity b a := by
  constructor
  · intro a _
    simp [calculateSimilarity]
  · intro a b
    unfold calculateSimilarity
    by_cases h : normalizeBopomofo a = normalizeBopomofo b
    · rw [if_pos h, if_pos h.symm]
    · have h' : ¬ normalizeBopomofo b = normalizeBopomofo a := fun e => h e.symm
      rw [if_neg h, if_neg h', levenshteinDistance_symm,
        Nat.max_comm (normalizeBopomofo a).length (normalizeBopomofo b).length,
        max_comm ((normalizeBopomofo a).length : ℚ) ((normalizeBopomofo b).length : ℚ)]

/-- Witness for C9: both parts at concrete strings — similarity of the
one-character string `ㄅ` with itself is `1`, and symmetry holds at the
pair `(ㄅ, ㄆ)`. -/
theorem calculateSimilarity_self_and_symm_witness :
    calculateSimilarity ['ㄅ'] ['ㄅ'] = 1 ∧
      calculateSimilarity ['ㄅ'] ['ㄆ'] = calculateSimilarity ['ㄆ'] ['ㄅ'] :=
  ⟨calculateSimilarity_self_and_symm.1 ['ㄅ'] (by decide),
    calculateSimilarity_self_and_symm.2 ['ㄅ'] ['ㄆ']⟩

/-- One heteronym of the moedict payload: its `b` field (the bopomofo
reading) may be absent. -/
structure Heteronym where
  b : Option (List Char)
deriving DecidableEq

/-- The moedict payload `MoedictResponse`: its `h` field (the heteronym
list) may be absent in a malformed payload. -/
structure MoedictResponse where
  h : Option (List Heteronym)
deriving DecidableEq

/-- The result record of `MoedictAPI.validateBopomofo`: its
`correctBopomofo` field is optional. -/
structure ValidationResult where
  isCorrect : Bool
  correctBopomofo : Option (List Char)
  confidence : ℚ
deriving DecidableEq

/-- The candidate reading list
`characterInfo.h.map(heteronym => heteronym.b).filter(Boolean)` of
`validateBopomofo` (line 59), empty whenever the lookup failed (`null`
response), the `h` field is absent, or no heteronym carries a truthy
(present, non-empty) `b`. -/
def candidateReadings (characterInfo : Option MoedictResponse) : List (List Char) :=
  match characterInfo with
  | none => []
  | some info =>
    match info.h with
    | none => []
    | some hs => ((hs.map (fun het => het.b)).filterMap id).filter (fun b => !b.isEmpty)

/-- JavaScript `Math.max(...values)` on a list of numbers; the code only
applies it to non-empty lists (the similarity list of a non-empty
candidate list), where it returns the greatest element. -/
def jsMax : List ℚ → ℚ
  | [] => 0
  | x :: xs => xs.foldl max x

/-- Stages 2-4 of `validateBopomofo` (lines 68-101), reached once the
candidate list `possibleBopomofo` is known to be non-empty: exact match,
tone-stripped match (first matching candidate, via `indexOf` on the
normalized list), then the similarity arg-max (first index attaining
`Math.max`, via `indexOf` on the similarity list). -/
def validateCascade (possibleBopomofo : List (List Char)) (inputBopomofo : List Char) :
    ValidationResult :=
  if possibleBopomofo.contains inputBopomofo then ⟨true, some inputBopomofo, 1⟩
  else if (possibleBopomofo.map normalizeBopomofo).contains (normalizeBopomofo inputBopomofo) then
    ⟨true,
      possibleBopomofo.get?
        ((possibleBopomofo.map normalizeBopomofo).indexOf (normalizeBopomofo inputBopomofo)),
      8/10⟩
  else
    ⟨decide (7/10 < jsMax (possibleBopomofo.map (fun b => calculateSimilarity inputBopomofo b))),
      possibleBopomofo.get?
        ((possibleBopomofo.map (fun b => calculateSimilarity inputBopomofo b)).indexOf
          (jsMax (possibleBopomofo.map (fun b => calculateSimilarity inputBopomofo b)))),
      jsMax (possibleBopomofo.map (fun b => calculateSimilarity inputBopomofo b))⟩

/-- `MoedictAPI.validateBopomofo` (lines 44-102).  The async lookup
`getCharacterInfo` resolves to `null` on any failure (network error,
non-OK status, malformed JSON), modelled by the `Option MoedictResponse`
argument; the three early returns guard a missing response, a missing or
empty `h` array, and an empty candidate list, each yielding
`{isCorrect: false, confidence: 0}` with no `correctBopomofo`. -/
def validateBopomofo (characterInfo : Option MoedictResponse)
    (inputBopomofo : List Char) : ValidationResult :=
  match characterInfo with
  | none => ⟨false, none, 0⟩
  | some info =>
    match info.h with
    | none => ⟨false, none, 0⟩
    | some hs =>
      if hs.length = 0 then ⟨false, none, 0⟩
      else
        let possibleBopomofo := ((hs.map (fun het => het.b)).filterMap id).filter
          (fun b => !b.isEmpty)
        if possibleBopomofo.length = 0 then ⟨false, none, 0⟩
        else validateCascade possibleBopomofo inputBopomofo

/-- C6: the validator never propagates a lookup failure — whenever the
lookup yields no candidate readings (failed fetch, absent or empty `h`,
or no usable reading), `validateBopomofo` returns exactly
`{isCorrect: false, confidence: 0}` (and it is a total Lean function, so
it always terminates with this definite verdict). -/
theorem validateBopomofo_no_candidates (characterInfo : Option MoedictResponse)
    (inputBopomofo : List Char) (h : candidateReadings characterInfo = []) :
    validateBopomofo characterInfo inputBopomofo = ⟨false, none, 0⟩ := by
  cases characterInfo with
  | none => rfl
  | some info =>
    obtain ⟨hOpt⟩ := info
    cases hOpt with
    | none => rfl
    | some hs =>
      have hp : (hs.filterMap (fun het => het.b)).filter (fun b => !b.isEmpty) = [] := by
        simpa [candidateReadings] using h
      unfold validateBopomofo
      by_cases hl : hs.length = 0
      · simp [hl]
      · simp [hl, hp]

/-- Witness for C6: a failed lookup (`null` response) yields the degraded
verdict for the input `ㄅ`. -/
theorem validateBopomofo_no_candidates_witness :
    validateBopomofo none ['ㄅ'] = ⟨false, none, 0⟩ :=
  validateBopomofo_no_candidates none ['ㄅ'] rfl

lemma contains_eq_true_iff {α : Type} [BEq α] [LawfulBEq α] (l : List α) (a : α) :
    l.contains a = true ↔ a ∈ l :=
  List.elem_iff

lemma foldl_max_init_le (xs : List ℚ) (x : ℚ) : x ≤ xs.foldl max x := by
  induction xs generalizing x with
  | nil => exact le_refl x
  | cons y ys ih => exact le_trans (le_max_left x y) (ih (max x y))

lemma mem_le_foldl_max (xs : List ℚ) (x : ℚ) : ∀ y ∈ xs, y ≤ xs.foldl max x := by
  induction xs generalizing x with
  | nil => intro y hy; cases hy
  | cons z zs ih =>
    intro y hy
    rcases List.mem_cons.mp hy with rfl | hy
    · exact le_trans (le_max_right x y) (foldl_max_init_le zs (max x y))
    · exact ih (max x z) y hy

lemma foldl_max_mem (xs : List ℚ) (x : ℚ) : xs.foldl max x = x ∨ xs.foldl max x ∈ xs := by
  induction xs generalizing x with
  | nil => exact Or.inl rfl
  | cons y ys ih =>
    rcases ih (max x y) with h | h
    · rcases max_choice x y with hm | hm
      · exact Or.inl (by rw [List.foldl_cons, h, hm])
      · exact Or.inr (by rw [List.foldl_cons, h, hm]; exact List.mem_cons_self y ys)
    · exact Or.inr (List.mem_cons_of_mem y h)

/-- On a non-empty list, `Math.max(...values)` (modelled by `jsMax`) is a
member of the list and an upper bound of it. -/
lemma jsMax_spec (l : List ℚ) (h : l ≠ []) : jsMax l ∈ l ∧ ∀ y ∈ l, y ≤ jsMax l := by
  match l with
  | [] => exact absurd rfl h
  | x :: xs =>
    constructor
    · rcases foldl_max_mem xs x with h1 | h1
      · rw [jsMax, h1]; exact List.mem_cons_self x xs
      · exact List.mem_cons_of_mem x h1
    · intro y hy
      rcases List.mem_cons.mp hy with rfl | hy
      · exact foldl_max_init_le xs y
      · exact mem_le_foldl_max xs x y hy

/-- Every entry strictly before `indexOf a l` differs from `a` —
`indexOf` finds the first occurrence. -/
lemma get_ne_of_lt_indexOf {α : Type} [BEq α] [LawfulBEq α] (l : List α) (a : α) (j : ℕ)
    (hj : j < l.indexOf a) (hjl : j < l.length) : l.get ⟨j, hjl⟩ ≠ a := by
  induction l generalizing j with
  | nil => exact absurd hjl (by simp)
  | cons x xs ih =>
    rw [List.indexOf, List.findIdx_cons] at hj
    cases hb : x == a with
    | true =>
      rw [hb] at hj
      exact absurd hj (Nat.not_lt_zero j)
    | false =>
      rw [hb] at hj
      cases j with
      | zero =>
        intro hx
        rw [List.get] at hx
        rw [hx] at hb
        simp at hb
      | succ k =>
        have hk : k < xs.indexOf a := Nat.lt_of_succ_lt_succ hj
        have hkl : k < xs.length := Nat.lt_of_succ_lt_succ hjl
        simpa using ih k hk hkl

/-- For a member `a` of `l`, `indexOf a l` is a valid position and the
entry there is `a`. -/
lemma indexOf_spec {α : Type} [BEq α] [LawfulBEq α] (l : List α) (a : α) (h : a ∈ l) :
    ∃ hk : l.indexOf a < l.length, l.get ⟨l.indexOf a, hk⟩ = a := by
  induction l with
  | nil => cases h
  | cons x xs ih =>
    cases hb : x == a with
    | true =>
      have h0 : (x :: xs).indexOf a = 0 := by
        rw [List.indexOf, List.findIdx_cons, hb]
        rfl
      rw [h0]
      exact ⟨Nat.succ_pos _, eq_of_beq hb⟩
    | false =>
      have h1 : (x :: xs).indexOf a = xs.indexOf a + 1 := by
        rw [List.indexOf, List.findIdx_cons, hb]
        rfl
      have ham : a ∈ xs := by
        rcases List.mem_cons.mp h with rfl | hxs
        · simp at hb
        · exact hxs
      obtain ⟨hk, hget⟩ := ih ham
      rw [h1]
      exact ⟨Nat.succ_lt_succ hk, hget⟩

lemma get_map_eq {α β : Type} (f : α → β) (l : List α) (i : ℕ) (hi : i < l.length)
    (hi2 : i < (l.map f).length) : (l.map f).get ⟨i, hi2⟩ = f (l.get ⟨i, hi⟩) := by
  simp

/-- When the candidate list is non-empty, `validateBopomofo` passes all
three guards and runs the matching cascade on it. -/
lemma validateBopomofo_eq_cascade (characterInfo : Option MoedictResponse)
    (inputBopomofo : List Char) (hne : candidateReadings characterInfo ≠ []) :
    validateBopomofo characterInfo inputBopomofo =
      validateCascade (candidateReadings characterInfo) inputBopomofo := by
  cases characterInfo with
  | none => exact absurd rfl hne
  | some info =>
    obtain ⟨hOpt⟩ := info
    cases hOpt with
    | none => exact absurd rfl hne
    | some hs =>
      have hE : ((hs.map (fun het => het.b)).filterMap id).filter (fun b => !b.isEmpty) ≠ [] :=
        hne
      have hs0 : ¬ hs.length = 0 := by
        intro h0
        rw [List.length_eq_zero.mp h0] at hE
        exact hE rfl
      have hE0 : ¬ (((hs.map (fun het => het.b)).filterMap id).filter
          (fun b => !b.isEmpty)).length = 0 :=
        fun h0 => hE (List.length_eq_zero.mp h0)
      show (if hs.length = 0 then (⟨false, none, 0⟩ : ValidationResult)
          else if (((hs.map (fun het => het.b)).filterMap id).filter
              (fun b => !b.isEmpty)).length = 0
            then (⟨false, none, 0⟩ : ValidationResult)
            else validateCascade (((hs.map (fun het => het.b)).filterMap id).filter
              (fun b => !b.isEmpty)) inputBopomofo) = _
      rw [if_neg hs0, if_neg hE0]
      rfl

/-- C5: when the lookup yields a non-empty candidate reading list,
`validateBopomofo` follows the three-stage cascade.  Stage 1: an input
equal to some candidate yields `{isCorrect: true, matchedReading: input,
confidence: 1.0}`.  Stage 2: otherwise, if the tone-stripped input equals
the tone-stripped form of some candidate, the result is `{isCorrect:
true, confidence: 0.8}` with the first such candidate in list order as
the matched reading.  Stage 3: otherwise the confidence is the maximum
similarity over all candidates, `isCorrect` holds exactly when that
maximum exceeds `0.7`, and the matched reading is the earliest candidate
attaining the maximum (every strictly earlier candidate has strictly
smaller similarity). -/
theorem validateBopomofo_three_stage_cascade (characterInfo : Option MoedictResponse)
    (inputBopomofo : List Char) (hne : candidateReadings characterInfo ≠ []) :
    (inputBopomofo ∈ candidateReadings characterInfo →
      validateBopomofo characterInfo inputBopomofo = ⟨true, some inputBopomofo, 1⟩) ∧
    (inputBopomofo ∉ candidateReadings characterInfo →
      ∀ i (hi : i < (candidateReadings characterInfo).length),
        normalizeBopomofo ((candidateReadings characterInfo).get ⟨i, hi⟩) =
          normalizeBopomofo inputBopomofo →
        (∀ j (hj : j < i),
          normalizeBopomofo ((candidateReadings characterInfo).get ⟨j, lt_trans hj hi⟩) ≠
            normalizeBopomofo inputBopomofo) →
        validateBopomofo characterInfo inputBopomofo =
          ⟨true, some ((candidateReadings characterInfo).get ⟨i, hi⟩), 8/10⟩) ∧
    (inputBopomofo ∉ candidateReadings characterInfo →
      (∀ c ∈ candidateReadings characterInfo,
        normalizeBopomofo c ≠ normalizeBopomofo inputBopomofo) →
      (∀ c ∈ candidateReadings characterInfo,
        calculateSimilarity inputBopomofo c ≤
          (validateBopomofo characterInfo inputBopomofo).confidence) ∧
      ((validateBopomofo characterInfo inputBopomofo).isCorrect = true ↔
        7/10 < (validateBopomofo characterInfo inputBopomofo).confidence) ∧
      ∃ i, ∃ hi : i < (candidateReadings characterInfo).length,
        calculateSimilarity inputBopomofo ((candidateReadings characterInfo).get ⟨i, hi⟩) =
          (validateBopomofo characterInfo inputBopomofo).confidence ∧
        (validateBopomofo characterInfo inputBopomofo).correctBopomofo =
          some ((candidateReadings characterInfo).get ⟨i, hi⟩) ∧
        ∀ j (hj : j < i),
          calculateSimilarity inputBopomofo
              ((candidateReadings characterInfo).get ⟨j, lt_trans hj hi⟩) <
            (validateBopomofo characterInfo inputBopomofo).confidence) := by
  have hcas := validateBopomofo_eq_cascade characterInfo inputBopomofo hne
  refine ⟨?_, ?_, ?_⟩
  · intro hmem
    rw [hcas]
    unfold validateCascade
    rw [if_pos ((contains_eq_true_iff _ _).mpr hmem)]
  · intro hmem i hi hmatch hfirst
    rw [hcas]
    have hc1 : ¬ (candidateReadings characterInfo).contains inputBopomofo = true := by
      rw [contains_eq_true_iff]
      exact hmem
    have hi2 : i < ((candidateReadings characterInfo).map normalizeBopomofo).length := by
      rw [List.length_map]
      exact hi
    have hnormMem : normalizeBopomofo inputBopomofo ∈
        (candidateReadings characterInfo).map normalizeBopomofo :=
      List.mem_map.mpr ⟨_, List.get_mem _ i hi, hmatch⟩
    have hc2 : ((candidateReadings characterInfo).map normalizeBopomofo).contains
        (normalizeBopomofo inputBopomofo) = true :=
      (contains_eq_true_iff _ _).mpr hnormMem
    unfold validateCascade
    rw [if_neg hc1, if_pos hc2]
    obtain ⟨hkmap, hkget⟩ := indexOf_spec _ _ hnormMem
    have hkcand : ((candidateReadings characterInfo).map normalizeBopomofo).indexOf
        (normalizeBopomofo inputBopomofo) < (candidateReadings characterInfo).length := by
      rw [← List.length_map (candidateReadings characterInfo) normalizeBopomofo]
      exact hkmap
    have hik : i = ((candidateReadings characterInfo).map normalizeBopomofo).indexOf
        (normalizeBopomofo inputBopomofo) := by
      rcases lt_trichotomy i (((candidateReadings characterInfo).map normalizeBopomofo).indexOf
          (normalizeBopomofo inputBopomofo)) with hlt | heq | hgt
      · exfalso
        apply get_ne_of_lt_indexOf _ _ i hlt hi2
        rw [get_map_eq normalizeBopomofo _ i hi hi2]
        exact hmatch
      · exact heq
      · exfalso
        refine hfirst _ hgt ?_
        rw [get_map_eq normalizeBopomofo _ _ hkcand hkmap] at hkget
        exact hkget
    rw [← hik, List.get?_eq_get hi]
  · intro hmem hnone
    rw [hcas]
    have hc1 : ¬ (candidateReadings characterInfo).contains inputBopomofo = true := by
      rw [contains_eq_true_iff]
      exact hmem
    have hc2 : ¬ ((candidateReadings characterInfo).map normalizeBopomofo).contains
        (normalizeBopomofo inputBopomofo) = true := by
      rw [contains_eq_true_iff]
      intro hmm
      rcases List.mem_map.mp hmm with ⟨c, hc, hcEq⟩
      exact hnone c hc hcEq
    unfold validateCascade
    rw [if_neg hc1, if_neg hc2]
    have hsne : (candidateReadings characterInfo).map
        (fun b => calculateSimilarity inputBopomofo b) ≠ [] := by
      intro h0
      exact hne (by simpa using h0)
    obtain ⟨hmemMax, hub⟩ := jsMax_spec _ hsne
    obtain ⟨hbidx, hbget⟩ := indexOf_spec _ _ hmemMax
    have hbcand : (((candidateReadings characterInfo).map
        (fun b => calculateSimilarity inputBopomofo b)).indexOf
          (jsMax ((candidateReadings characterInfo).map
            (fun b => calculateSimilarity inputBopomofo b)))) <
        (candidateReadings characterInfo).length := by
      rw [← List.length_map (candidateReadings characterInfo)
        (fun b => calculateSimilarity inputBopomofo b)]
      exact hbidx
    refine ⟨?_, ?_, ?_⟩
    · intro c hc
      exact hub _ (List.mem_map.mpr ⟨c, hc, rfl⟩)
    · show decide (7/10 < jsMax ((candidateReadings characterInfo).map
        (fun b => calculateSimilarity inputBopomofo b))) = true ↔ _
      rw [decide_eq_true_eq]
    · refine ⟨_, hbcand, ?_, ?_, ?_⟩
      · rw [get_map_eq (fun b => calculateSimilarity inputBopomofo b) _ _ hbcand hbidx] at hbget
        exact hbget
      · show (candidateReadings characterInfo).get? _ = _
        rw [List.get?_eq_get hbcand]
      · intro j hj
        have hjs : j < ((candidateReadings characterInfo).map
            (fun b => calculateSimilarity inputBopomofo b)).length := lt_trans hj hbidx
        have hne2 := get_ne_of_lt_indexOf _ _ j hj hjs
        have hle := hub _ (List.get_mem _ j hjs)
        have hlt2 := lt_of_le_of_ne hle hne2
        rw [get_map_eq (fun b => calculateSimilarity inputBopomofo b) _ j
          (lt_trans hj hbcand) hjs] at hlt2
        exact hlt2

/-- Witness for C5: for a payload with the single candidate reading `ㄅ`
and the exactly matching input `ㄅ`, stage 1 of the theorem yields the
full-confidence verdict. -/
theorem validateBopomofo_three_stage_cascade_witness :
    validateBopomofo (some ⟨some [⟨some ['ㄅ']⟩]⟩) ['ㄅ'] =
      ⟨true, some ['ㄅ'], 1⟩ :=
  (validateBopomofo_three_stage_cascade (some ⟨some [⟨some ['ㄅ']⟩]⟩) ['ㄅ']
    (by decide)).1 (by decide)

/-- A learning record, reduced to the fields the due-queue selector
reads: `nextReview` is a timestamp in milliseconds; `id` distinguishes
records. -/
structure LearningRecord where
  id : ℕ
  nextReview : ℤ
deriving DecidableEq, Repr

instance : DecidableRel (fun a b : LearningRecord => a.nextReview ≤ b.nextReview) :=
  fun a b => Int.decLe a.nextReview b.nextReview

/-- `getDueLearningRecords` of `src/components/StudyView.tsx` (lines
1130-1135): keep the records with `new Date(r.nextReview) <= now`, then
sort ascending by `nextReview` using `Array.prototype.sort` with the
comparator `a.nextReview - b.nextReview` — per ES2019 a stable ascending
sort, modelled by the stable `insertionSort`. -/
def getDueLearningRecords (learningRecords : List LearningRecord) (now : ℤ) :
    List LearningRecord :=
  (learningRecords.filter (fun r => decide (r.nextReview ≤ now))).insertionSort
    (fun a b => a.nextReview ≤ b.nextReview)

/-- C10: the due queue holds exactly the records with `nextReview ≤ now`
(a record due exactly at `now` is kept, a strictly later one dropped, as
a permutation of the filtered list), is ordered ascending by
`nextReview`, and the sort is stable: two records with the same
`nextReview` keep their original relative order. -/
theorem getDueLearningRecords_spec (learningRecords : List LearningRecord) (now : ℤ) :
    List.Perm (getDueLearningRecords learningRecords now)
        (learningRecords.filter (fun r => decide (r.nextReview ≤ now))) ∧
      List.Pairwise (fun a b : LearningRecord => a.nextReview ≤ b.nextReview)
        (getDueLearningRecords learningRecords now) ∧
      ∀ a b : LearningRecord, a.nextReview = b.nextReview → a.nextReview ≤ now →
        List.Sublist [a, b] learningRecords →
        List.Sublist [a, b] (getDueLearningRecords learningRecords now) := by
  haveI : IsTotal LearningRecord (fun a b => a.nextReview ≤ b.nextReview) :=
    ⟨fun a b => Int.le_total a.nextReview b.nextReview⟩
  haveI : IsTrans LearningRecord (fun a b => a.nextReview ≤ b.nextReview) :=
    ⟨fun _ _ _ hab hbc => le_trans hab hbc⟩
  refine ⟨List.perm_insertionSort _ _, List.sorted_insertionSort _ _, ?_⟩
  intro a b heq hle hsub
  have hpb : b.nextReview ≤ now := heq ▸ hle
  have hfil := List.Sublist.filter (fun r => decide (r.nextReview ≤ now)) hsub
  have h2 : List.filter (fun r => decide (r.nextReview ≤ now)) [a, b] = [a, b] := by
    simp [List.filter_cons, hle, hpb]
  rw [h2] at hfil
  exact List.pair_sublist_insertionSort (le_of_eq heq) hfil

/-- Witness for C10: with records due at 5, 5 and 99 and `now = 10`, the
two records sharing `nextReview = 5` appear in the queue in their
original order. -/
theorem getDueLearningRecords_spec_witness :
    List.Sublist [⟨1, 5⟩, ⟨2, 5⟩]
      (getDueLearningRecords [⟨1, 5⟩, ⟨2, 5⟩, ⟨3, 99⟩] 10) :=
  (getDueLearningRecords_spec [⟨1, 5⟩, ⟨2, 5⟩, ⟨3, 99⟩] 10).2.2 ⟨1, 5⟩ ⟨2, 5⟩ rfl
    (by decide)
    (List.Sublist.cons₂ _ (List.Sublist.cons₂ _ (List.nil_sublist _)))

end FlashMaster
